import Mathlib

/-!
Verification of the python-fire command-line-interface library against its
natural-language specification.

The repository's `src/` tree contains `fire/decorators.py` and
`fire/value_types.py` together with the test suite; the modules
`fire/parser.py`, `fire/core.py`, `fire/trace.py` and `fire/inspectutils.py`
are exercised by the tests but their sources are not included.  Definitions
for those modules are modelled from the specification (section 4 of
`spec.md`) and are pinned by the behaviour the in-repository tests assert;
each such definition says so in its doc comment.  Definitions for
`decorators.py` and `value_types.py` are translated directly from the
source files.
-/

namespace Fire

/-! ## Values produced by the literal parser

Python values that `parser.DefaultParseValue` can produce.  Floats are
modelled as exact decimal rationals: `Value.float num den` denotes the
rational `num / den`, where `den` is a power of ten produced by the parser;
`floatRat` gives that denotation.  All test inputs relevant here denote
dyadic-free decimals that IEEE-754 comparison in the Python tests treats
exactly, so the exact-rational model is faithful on them. -/

inductive Value where
  | int : Int → Value
  | float : Int → Nat → Value
  | bool : Bool → Value
  | none : Value
  | str : String → Value
  | list : List Value → Value
  | tuple : List Value → Value
  | dict : List (Value × Value) → Value

/-- Denotation of a parsed float: the exact rational `num / den`. -/
def floatRat (num : Int) (den : Nat) : Rat := (num : Rat) / (den : Rat)

/-! ## Character helpers -/

/-- Decimal digit test, written out on character codes. -/
def isDigitChar (c : Char) : Bool := 48 ≤ c.toNat && c.toNat ≤ 57

/-- Numeric value of a decimal digit character. -/
def digitVal (c : Char) : Nat := c.toNat - 48

/-- Base-10 value of a digit string; this is the model of Python's
`int()` conversion on a plain decimal digit token. -/
def digitsToNat (ds : List Char) : Nat := ds.foldl (fun a c => 10 * a + digitVal c) 0

/-- Longest prefix of decimal digits, with the rest of the input. -/
def takeDigits : List Char → List Char × List Char
  | [] => ([], [])
  | c :: rest =>
    if isDigitChar c then
      let p := takeDigits rest
      (c :: p.1, p.2)
    else ([], c :: rest)

/-- Characters allowed in a bare (unquoted) word: letters, digits,
underscores. -/
def isBareChar (c : Char) : Bool :=
  isDigitChar c || (65 ≤ c.toNat && c.toNat ≤ 90) || (97 ≤ c.toNat && c.toNat ≤ 122) || c = '_'

/-- Longest prefix of bare-word characters, with the rest of the input. -/
def takeBare : List Char → List Char × List Char
  | [] => ([], [])
  | c :: rest =>
    if isBareChar c then
      let p := takeBare rest
      (c :: p.1, p.2)
    else ([], c :: rest)

/-- Drop leading space characters. -/
def skipSpaces (cs : List Char) : List Char := cs.dropWhile (fun c => c = ' ')

/-- Modelled from the spec: the comment handling of the literal grammar used
by `parser.DefaultParseValue` (module `fire/parser.py`, absent from `src/`).
A `#` outside a quoted segment starts a comment running to the end of the
token, per the test `testDefaultParseValueComments` (`'0#comments'` parses
as `0` while `'"0#comments"'` stays a string).  The first argument tracks
the currently open quote character, if any. -/
def stripCommentAux : Option Char → List Char → List Char
  | _, [] => []
  | some q, c :: rest => c :: stripCommentAux (if c = q then Option.none else some q) rest
  | Option.none, c :: rest =>
    if c = '#' then []
    else if c = '\'' || c = '"' then c :: stripCommentAux (some c) rest
    else c :: stripCommentAux Option.none rest

/-- Strip a trailing comment from a token (quote-aware). -/
def stripComment (cs : List Char) : List Char := stripCommentAux Option.none cs

/-! ## The restricted literal grammar

Modelled from the spec (section 4.1): `ParseValue` recognises, by a safe
literal grammar with no expression evaluation, quoted strings, `None`,
`True`/`False`, numbers (integer, float, scientific notation), and
list/tuple/dict literals whose bare words are treated as strings; binary
operators and any other expression forms are rejected.  All fallible steps
return `Option`; `DefaultParseValue` itself is total and falls back to the
verbatim string. -/

/-- Read the body of a quoted string up to the closing quote `q`; fails on
unterminated quotes. -/
def takeToQuote (q : Char) : List Char → Option (List Char × List Char)
  | [] => Option.none
  | c :: rest =>
    if c = q then some ([], rest)
    else
      match takeToQuote q rest with
      | some p => some (c :: p.1, p.2)
      | Option.none => Option.none

/-- Value of a bare word: the three literal constants, otherwise a string
(the grammar treats unquoted words inside containers as strings). -/
def bareValue (s : String) : Value :=
  if s = "None" then Value.none
  else if s = "True" then Value.bool true
  else if s = "False" then Value.bool false
  else Value.str s

/-- Parse the exponent suffix of a scientific-notation literal, scaling the
decimal `(num, den)` pair accordingly. -/
def parseExponentPart (num : Int) (den : Nat) : List Char → Option (Value × List Char)
  | '-' :: rest =>
    let p := takeDigits rest
    if p.1 = [] then Option.none
    else some (Value.float num (den * 10 ^ digitsToNat p.1), p.2)
  | '+' :: rest =>
    let p := takeDigits rest
    if p.1 = [] then Option.none
    else some (Value.float (num * (10 : Int) ^ digitsToNat p.1) den, p.2)
  | cs =>
    let p := takeDigits cs
    if p.1 = [] then Option.none
    else some (Value.float (num * (10 : Int) ^ digitsToNat p.1) den, p.2)

/-- Apply an optional leading minus sign to an integer. -/
def signed (neg : Bool) (n : Int) : Int := if neg then -n else n

/-- Parse a numeric literal (integer, decimal float, scientific notation)
from the head of the input.  `neg` records a consumed leading minus sign. -/
def parseNumber (neg : Bool) (cs : List Char) : Option (Value × List Char) :=
  let ipp := takeDigits cs
  if ipp.1 = [] then Option.none
  else
    match ipp.2 with
    | '.' :: r2 =>
      let fpp := takeDigits r2
      if fpp.1 = [] then Option.none
      else
        let num : Int := signed neg (digitsToNat ipp.1 * 10 ^ fpp.1.length + digitsToNat fpp.1)
        let den : Nat := 10 ^ fpp.1.length
        match fpp.2 with
        | 'e' :: r4 => parseExponentPart num den r4
        | r3 => some (Value.float num den, r3)
    | 'e' :: r2 => parseExponentPart (signed neg (digitsToNat ipp.1)) 1 r2
    | r1 => some (Value.int (signed neg (digitsToNat ipp.1)), r1)

mutual

/-- Parse one literal expression from the head of the input. -/
def parseExpr : Nat → List Char → Option (Value × List Char)
  | 0, _ => Option.none
  | fuel+1, cs0 =>
    match skipSpaces cs0 with
    | [] => Option.none
    | c :: rest =>
      if isDigitChar c then parseNumber false (c :: rest)
      else if c = '-' then parseNumber true rest
      else if c = '\'' || c = '"' then
        match takeToQuote c rest with
        | some p => some (Value.str (String.mk p.1), p.2)
        | Option.none => Option.none
      else if c = '[' then
        match parseItems fuel rest ']' with
        | some p => some (Value.list p.1, p.2)
        | Option.none => Option.none
      else if c = '(' then
        match parseItems fuel rest ')' with
        | some p => some (Value.tuple p.1, p.2)
        | Option.none => Option.none
      else if c = '{' then
        match parsePairs fuel rest with
        | some p => some (Value.dict p.1, p.2)
        | Option.none => Option.none
      else if isBareChar c then
        let p := takeBare (c :: rest)
        some (bareValue (String.mk p.1), p.2)
      else Option.none

/-- Parse comma-separated elements of a list or tuple literal up to the
closing bracket `close`. -/
def parseItems : Nat → List Char → Char → Option (List Value × List Char)
  | 0, _, _ => Option.none
  | fuel+1, cs, close =>
    match skipSpaces cs with
    | [] => Option.none
    | c :: rest =>
      if c = close then some ([], rest)
      else
        match parseExpr fuel (c :: rest) with
        | Option.none => Option.none
        | some vr =>
          match skipSpaces vr.2 with
          | ',' :: r2 =>
            match parseItems fuel r2 close with
            | some p => some (vr.1 :: p.1, p.2)
            | Option.none => Option.none
          | c2 :: r2 => if c2 = close then some ([vr.1], r2) else Option.none
          | [] => Option.none

/-- Parse comma-separated `key: value` entries of a dict literal up to the
closing brace. -/
def parsePairs : Nat → List Char → Option (List (Value × Value) × List Char)
  | 0, _ => Option.none
  | fuel+1, cs =>
    match skipSpaces cs with
    | [] => Option.none
    | c :: rest =>
      if c = '}' then some ([], rest)
      else
        match parseExpr fuel (c :: rest) with
        | Option.none => Option.none
        | some kv =>
          match skipSpaces kv.2 with
          | ':' :: r2 =>
            match parseExpr fuel r2 with
            | Option.none => Option.none
            | some vv =>
              match skipSpaces vv.2 with
              | ',' :: r4 =>
                match parsePairs fuel r4 with
                | some p => some ((kv.1, vv.1) :: p.1, p.2)
                | Option.none => Option.none
              | '}' :: r4 => some ([(kv.1, vv.1)], r4)
              | _ => Option.none
          | _ => Option.none

end

/-- Parse a whole token as one expression, or as a top-level bare tuple
(comma-separated expressions), requiring all input to be consumed. -/
def parseTop : Nat → List Char → Option (List Value)
  | 0, _ => Option.none
  | fuel+1, cs =>
    match parseExpr (fuel+1) cs with
    | Option.none => Option.none
    | some vr =>
      match skipSpaces vr.2 with
      | [] => some [vr.1]
      | ',' :: r2 =>
        match parseTop fuel r2 with
        | some vs => some (vr.1 :: vs)
        | Option.none => Option.none
      | _ => Option.none

/-- Modelled from the spec: the safe literal evaluator behind
`parser.DefaultParseValue` (module `fire/parser.py`, absent from `src/`).
Strips a trailing comment, then parses the token as a single literal (or a
top-level bare tuple).  Returns `Option.none` on any input the restricted
literal grammar does not cover (malformed literals, unbalanced containers,
expression forms, multi-statement input). -/
def literalEval (s : String) : Option Value :=
  let cs := stripComment s.data
  match parseTop (cs.length + 1) cs with
  | some [v] => some v
  | some [] => Option.none
  | some vs => some (Value.tuple vs)
  | Option.none => Option.none

/-- Modelled from the spec: `parser.DefaultParseValue` (module
`fire/parser.py`, absent from `src/`).  Total by construction: every
failure of the literal evaluator degrades to returning the original
string unchanged, never an error. -/
def DefaultParseValue (s : String) : Value :=
  match literalEval s with
  | some v => v
  | Option.none => Value.str s

/-- Modelled from the spec: `parser.SeparateFlagArgs` (module
`fire/parser.py`, absent from `src/`), which splits a token list on the
separator token `--` into the tokens for Fire and the trailing flag
arguments.  The in-repository test `parser_test.testSeparateFlagArgs` pins
the split point to the LAST occurrence of `--` (for example
`['a','b','--','c','--','d']` must split into `(['a','b','--','c'],['d'])`),
so earlier occurrences stay verbatim in the front part. -/
def SeparateFlagArgs : List String → List String × List String
  | [] => ([], [])
  | t :: rest =>
    if "--" ∈ rest then
      let p := SeparateFlagArgs rest
      (t :: p.1, p.2)
    else if t = "--" then ([], rest)
    else (t :: rest, [])

end Fire

namespace Fire

/-! Validation of the literal-parser model against the expectations of
`parser_test.py`. -/

example : DefaultParseValue "hello" = Value.str "hello" := rfl
example : DefaultParseValue "path/file.jpg" = Value.str "path/file.jpg" := rfl
example : DefaultParseValue "hello world" = Value.str "hello world" := rfl
example : DefaultParseValue "--flag" = Value.str "--flag" := rfl
example : DefaultParseValue "'hello'" = Value.str "hello" := rfl
example : DefaultParseValue "'hello world'" = Value.str "hello world" := rfl
example : DefaultParseValue "'--flag'" = Value.str "--flag" := rfl
example : DefaultParseValue "\"hello\"" = Value.str "hello" := rfl
example : DefaultParseValue "\"--flag\"" = Value.str "--flag" := rfl
example : DefaultParseValue "-" = Value.str "-" := rfl
example : DefaultParseValue "--" = Value.str "--" := rfl
example : DefaultParseValue "---" = Value.str "---" := rfl
example : DefaultParseValue "----" = Value.str "----" := rfl
example : DefaultParseValue "None" = Value.none := rfl
example : DefaultParseValue "'None'" = Value.str "None" := rfl
example : DefaultParseValue "23" = Value.int 23 := rfl
example : DefaultParseValue "-23" = Value.int (-23) := rfl
example : DefaultParseValue "23.0" = Value.float 230 10 := rfl
example : DefaultParseValue "23.5" = Value.float 235 10 := rfl
example : DefaultParseValue "-23.5" = Value.float (-235) 10 := rfl
example : DefaultParseValue "'23'" = Value.str "23" := rfl
example : DefaultParseValue "'23.0'" = Value.str "23.0" := rfl
example : DefaultParseValue "\"'123'\"" = Value.str "'123'" := rfl
example : DefaultParseValue "1e5" = Value.float 100000 1 := rfl
example : DefaultParseValue "True" = Value.bool true := rfl
example : DefaultParseValue "False" = Value.bool false := rfl
example : DefaultParseValue "[1, 2, 3]" = Value.list [Value.int 1, Value.int 2, Value.int 3] := rfl
example : DefaultParseValue "[1, \"2\", 3]" = Value.list [Value.int 1, Value.str "2", Value.int 3] := rfl
example : DefaultParseValue "[one, 2, \"3\"]" = Value.list [Value.str "one", Value.int 2, Value.str "3"] := rfl
example : DefaultParseValue "(one, 2, \"3\")" = Value.tuple [Value.str "one", Value.int 2, Value.str "3"] := rfl
example : DefaultParseValue "one, \"2\", 3" = Value.tuple [Value.str "one", Value.str "2", Value.int 3] := rfl
example : DefaultParseValue "\"0#comments\"" = Value.str "0#comments" := rfl
example : DefaultParseValue "0#comments" = Value.int 0 := rfl
example : DefaultParseValue "[(A, 2, \"3\"), 5" = Value.str "[(A, 2, \"3\"), 5" := rfl
example : DefaultParseValue "x=10" = Value.str "x=10" := rfl
example : DefaultParseValue "\"" = Value.str "\"" := rfl
example : DefaultParseValue "2017-10-10" = Value.str "2017-10-10" := rfl
example : DefaultParseValue "1+1" = Value.str "1+1" := rfl

example : SeparateFlagArgs [] = ([], []) := by decide
example : SeparateFlagArgs ["a", "b"] = (["a", "b"], []) := by decide
example : SeparateFlagArgs ["a", "b", "--"] = (["a", "b"], []) := by decide
example : SeparateFlagArgs ["a", "b", "--", "c"] = (["a", "b"], ["c"]) := by decide
example : SeparateFlagArgs ["--"] = ([], []) := by decide
example : SeparateFlagArgs ["--", "c", "d"] = ([], ["c", "d"]) := by decide
example : SeparateFlagArgs ["a", "b", "--", "c", "d"] = (["a", "b"], ["c", "d"]) := by decide
example : SeparateFlagArgs ["a", "b", "--", "c", "d", "--"] = (["a", "b", "--", "c", "d"], []) := by decide
example : SeparateFlagArgs ["a", "b", "--", "c", "--", "d"] = (["a", "b", "--", "c"], ["d"]) := by decide

end Fire

namespace Fire

/-! ## Lemmas about SeparateFlagArgs -/

theorem separateFlagArgs_of_not_mem (args : List String) (h : "--" ∉ args) :
    SeparateFlagArgs args = (args, []) := by
  induction args with
  | nil => rfl
  | cons t rest ih =>
    have h1 : "--" ∉ rest := fun hm => h (List.mem_cons_of_mem _ hm)
    have h2 : ¬ t = "--" := fun ht => h (ht ▸ List.mem_cons_self _ _)
    simp [SeparateFlagArgs, h1, h2]

theorem separateFlagArgs_of_mem (args : List String) (h : "--" ∈ args) :
    args = (SeparateFlagArgs args).1 ++ ["--"] ++ (SeparateFlagArgs args).2 ∧
      "--" ∉ (SeparateFlagArgs args).2 := by
  induction args with
  | nil => cases h
  | cons t rest ih =>
    by_cases hr : "--" ∈ rest
    · have hrec := ih hr
      simp only [SeparateFlagArgs, if_pos hr]
      exact ⟨by
        conv_lhs => rw [hrec.1]
        simp, hrec.2⟩
    · have ht : t = "--" := by
        rcases List.mem_cons.mp h with h1 | h2
        · exact h1.symm
        · exact absurd h2 hr
      simp [SeparateFlagArgs, hr, ht]

end Fire

namespace Fire

/-- C1 (amended): `SeparateFlagArgs` splits a token list at the LAST
occurrence of the `--` marker, consuming exactly that occurrence, so that
no occurrence of the marker remains in the returned tail while any earlier
occurrence remains verbatim in the returned front part; a list without the
marker is returned whole with an empty tail; in particular
`SeparateFlagArgs ['a','--','b','--'] = (['a','--','b'], [])`. -/
theorem c1_separate_flag_args_splits_at_last :
    (∀ args : List String, "--" ∉ args → SeparateFlagArgs args = (args, [])) ∧
    (∀ args : List String, "--" ∈ args →
      args = (SeparateFlagArgs args).1 ++ ["--"] ++ (SeparateFlagArgs args).2 ∧
        "--" ∉ (SeparateFlagArgs args).2) ∧
    SeparateFlagArgs ["a", "--", "b", "--"] = (["a", "--", "b"], []) :=
  ⟨separateFlagArgs_of_not_mem, separateFlagArgs_of_mem, by decide⟩

/-- C1 counterexample: contrary to the claim, `SeparateFlagArgs` does not
split `['a','--','b','--']` at the first `--` into `(['a'], ['b','--'])`;
the in-repository test `parser_test.testSeparateFlagArgs` pins the split to
the last occurrence, giving `(['a','--','b'], [])`. -/
theorem c1_counterexample_first_split :
    ¬ SeparateFlagArgs ["a", "--", "b", "--"] = (["a"], ["b", "--"]) := by decide

/-- C1 witness: the amended theorem applied at the concrete token list
`['a','--','b','--']`. -/
theorem c1_witness :
    ("--" ∈ ["a", "--", "b", "--"]) ∧
      (["a", "--", "b", "--"] =
          (SeparateFlagArgs ["a", "--", "b", "--"]).1 ++ ["--"] ++
            (SeparateFlagArgs ["a", "--", "b", "--"]).2 ∧
        "--" ∉ (SeparateFlagArgs ["a", "--", "b", "--"]).2) :=
  ⟨by decide, c1_separate_flag_args_splits_at_last.2.1 ["a", "--", "b", "--"] (by decide)⟩

end Fire

namespace Fire

/-! ## Lemmas about the literal parser -/

theorem takeDigits_all (ds : List Char) (h : ∀ c ∈ ds, isDigitChar c = true) :
    takeDigits ds = (ds, []) := by
  induction ds with
  | nil => rfl
  | cons c rest ih =>
    have hc : isDigitChar c = true := h c (List.mem_cons_self _ _)
    have hrest := ih (fun x hx => h x (List.mem_cons_of_mem _ hx))
    simp [takeDigits, hc, hrest]

theorem takeDigits_append (ds : List Char) (b : Char) (r : List Char)
    (h : ∀ c ∈ ds, isDigitChar c = true) (hb : isDigitChar b = false) :
    takeDigits (ds ++ b :: r) = (ds, b :: r) := by
  induction ds with
  | nil => simp [takeDigits, hb]
  | cons c rest ih =>
    have hc : isDigitChar c = true := h c (List.mem_cons_self _ _)
    have hrest := ih (fun x hx => h x (List.mem_cons_of_mem _ hx))
    simp [takeDigits, hc, hrest]

theorem stripCommentAux_of_no_hash (st : Option Char) (cs : List Char)
    (h : '#' ∉ cs) : stripCommentAux st cs = cs := by
  induction cs generalizing st with
  | nil => cases st <;> rfl
  | cons c rest ih =>
    have h1 : '#' ∉ rest := fun hm => h (List.mem_cons_of_mem _ hm)
    have h2 : ¬ c = '#' := fun hc => h (hc ▸ List.mem_cons_self _ _)
    cases st with
    | some q => simp [stripCommentAux, ih _ h1]
    | none =>
      by_cases hq : c = '\'' || c = '"'
      · simp [stripCommentAux, h2, hq, ih _ h1]
      · simp [stripCommentAux, h2, hq, ih _ h1]

theorem no_hash_of_digits (ds : List Char) (h : ∀ c ∈ ds, isDigitChar c = true) :
    '#' ∉ ds := by
  intro hm
  have := h _ hm
  simp [isDigitChar] at this

theorem not_space_of_digit (c : Char) (h : isDigitChar c = true) : ¬ c = ' ' := by
  intro hc
  rw [hc] at h
  simp [isDigitChar] at h

theorem skipSpaces_cons_of_not_space (c : Char) (r : List Char) (h : ¬ c = ' ') :
    skipSpaces (c :: r) = c :: r := by
  simp [skipSpaces, List.dropWhile_cons, h]

theorem parseNumber_int (ds : List Char) (h1 : ds ≠ [])
    (h2 : ∀ c ∈ ds, isDigitChar c = true) :
    parseNumber false ds = some (Value.int (digitsToNat ds), []) := by
  unfold parseNumber
  rw [takeDigits_all ds h2]
  simp [h1, signed]

theorem parseNumber_neg_int (ds : List Char) (h1 : ds ≠ [])
    (h2 : ∀ c ∈ ds, isDigitChar c = true) :
    parseNumber true ds = some (Value.int (-(digitsToNat ds : Int)), []) := by
  unfold parseNumber
  rw [takeDigits_all ds h2]
  simp [h1, signed]

theorem parseNumber_float (ip fp : List Char) (h1 : ip ≠ []) (h2 : fp ≠ [])
    (hip : ∀ c ∈ ip, isDigitChar c = true) (hfp : ∀ c ∈ fp, isDigitChar c = true) :
    parseNumber false (ip ++ '.' :: fp) =
      some (Value.float (digitsToNat ip * 10 ^ fp.length + digitsToNat fp)
        (10 ^ fp.length), []) := by
  unfold parseNumber
  rw [takeDigits_append ip '.' fp hip (by decide)]
  simp only [h1, if_neg, takeDigits_all fp hfp]
  simp [h1, h2, signed]

end Fire

namespace Fire

theorem parseExpr_digit_head (n : Nat) (c : Char) (r : List Char)
    (hd : isDigitChar c = true) :
    parseExpr (n+1) (c :: r) = parseNumber false (c :: r) := by
  have hs : skipSpaces (c :: r) = c :: r :=
    skipSpaces_cons_of_not_space c r (not_space_of_digit c hd)
  simp only [parseExpr, hs, hd, if_true]

theorem parseExpr_dash_head (n : Nat) (r : List Char) :
    parseExpr (n+1) ('-' :: r) = parseNumber true r := by
  have hs : skipSpaces ('-' :: r) = '-' :: r :=
    skipSpaces_cons_of_not_space '-' r (by decide)
  simp only [parseExpr, hs]
  rfl

theorem parseTop_single (n : Nat) (cs : List Char) (v : Value)
    (h : parseExpr (n+1) cs = some (v, [])) : parseTop (n+1) cs = some [v] := by
  simp [parseTop, h, skipSpaces]

theorem literalEval_int (ds : List Char) (h1 : ds ≠ [])
    (h2 : ∀ c ∈ ds, isDigitChar c = true) :
    literalEval (String.mk ds) = some (Value.int (digitsToNat ds)) := by
  obtain ⟨c, r, rfl⟩ := List.exists_cons_of_ne_nil h1
  have hstrip : stripComment (String.mk (c :: r)).data = c :: r :=
    stripCommentAux_of_no_hash _ _ (no_hash_of_digits _ h2)
  have hpe : parseExpr ((c :: r).length + 1) (c :: r) =
      some (Value.int (digitsToNat (c :: r)), []) := by
    rw [parseExpr_digit_head _ c r (h2 c (List.mem_cons_self _ _))]
    exact parseNumber_int _ h1 h2
  simp only [literalEval, hstrip, parseTop_single _ _ _ hpe]

theorem literalEval_neg_int (ds : List Char) (h1 : ds ≠ [])
    (h2 : ∀ c ∈ ds, isDigitChar c = true) :
    literalEval (String.mk ('-' :: ds)) = some (Value.int (-(digitsToNat ds : Int))) := by
  have hnh : '#' ∉ '-' :: ds := by
    intro hm
    rcases List.mem_cons.mp hm with h | h
    · cases h
    · exact no_hash_of_digits ds h2 h
  have hstrip : stripComment (String.mk ('-' :: ds)).data = '-' :: ds :=
    stripCommentAux_of_no_hash _ _ hnh
  have hpe : parseExpr (('-' :: ds).length + 1) ('-' :: ds) =
      some (Value.int (-(digitsToNat ds : Int)), []) := by
    rw [parseExpr_dash_head]
    exact parseNumber_neg_int _ h1 h2
  simp only [literalEval, hstrip, parseTop_single _ _ _ hpe]

theorem literalEval_float (ip fp : List Char) (h1 : ip ≠ []) (h2 : fp ≠ [])
    (hip : ∀ c ∈ ip, isDigitChar c = true) (hfp : ∀ c ∈ fp, isDigitChar c = true) :
    literalEval (String.mk (ip ++ '.' :: fp)) =
      some (Value.float (digitsToNat ip * 10 ^ fp.length + digitsToNat fp)
        (10 ^ fp.length)) := by
  have hnh : '#' ∉ ip ++ '.' :: fp := by
    intro hm
    rcases List.mem_append.mp hm with h | h
    · exact no_hash_of_digits ip hip h
    · rcases List.mem_cons.mp h with h | h
      · cases h
      · exact no_hash_of_digits fp hfp h
  have hstrip : stripComment (String.mk (ip ++ '.' :: fp)).data = ip ++ '.' :: fp :=
    stripCommentAux_of_no_hash _ _ hnh
  obtain ⟨c, r, hcr⟩ := List.exists_cons_of_ne_nil h1
  have hd : isDigitChar c = true := hip c (by rw [hcr]; exact List.mem_cons_self _ _)
  have hpe : parseExpr ((ip ++ '.' :: fp).length + 1) (ip ++ '.' :: fp) =
      some (Value.float (digitsToNat ip * 10 ^ fp.length + digitsToNat fp)
        (10 ^ fp.length), []) := by
    rw [show ip ++ '.' :: fp = c :: (r ++ '.' :: fp) by rw [hcr]; rfl]
    rw [parseExpr_digit_head _ c _ hd]
    rw [show c :: (r ++ '.' :: fp) = ip ++ '.' :: fp by rw [hcr]; rfl]
    exact parseNumber_float ip fp h1 h2 hip hfp
  simp only [literalEval, hstrip, parseTop_single _ _ _ hpe]

end Fire

namespace Fire

theorem floatRat_decimal (a b k : Nat) :
    floatRat (a * 10 ^ k + b) (10 ^ k) = (a : Rat) + (b : Rat) / ((10 : Rat) ^ k) := by
  have hk : ((10 : Rat) ^ k) ≠ 0 := pow_ne_zero _ (by norm_num)
  unfold floatRat
  push_cast
  field_simp

/-- C3: `DefaultParseValue` is total: it is a function defined on every
string (all fallible steps of the literal evaluator return `Option`, never
an error), and whenever the restricted literal grammar rejects the input —
including unbalanced containers, multi-statement input, and expression
forms such as `1+1` — it returns the original input string unchanged. -/
theorem c3_default_parse_value_total :
    (∀ s : String, literalEval s = Option.none → DefaultParseValue s = Value.str s) ∧
    DefaultParseValue "[(A, 2, \"3\"), 5" = Value.str "[(A, 2, \"3\"), 5" ∧
    DefaultParseValue "x=10" = Value.str "x=10" ∧
    DefaultParseValue "\"" = Value.str "\"" ∧
    DefaultParseValue "1+1" = Value.str "1+1" ∧
    DefaultParseValue "2017-10-10" = Value.str "2017-10-10" :=
  ⟨fun s h => by unfold DefaultParseValue; rw [h], rfl, rfl, rfl, rfl, rfl⟩

/-- C3 witness: the totality theorem applied at the mal-formed input
`1+1`, whose hypothesis (the literal evaluator rejects it) is discharged
by evaluation. -/
theorem c3_witness :
    literalEval "1+1" = Option.none ∧ DefaultParseValue "1+1" = Value.str "1+1" :=
  ⟨rfl, c3_default_parse_value_total.1 "1+1" rfl⟩

/-- C4: for every token that is a decimal integer literal (an optional
minus sign followed by a nonempty digit string), `DefaultParseValue`
returns an integer equal to the base-10 value of the digits (the model of
Python's `int(token)`), and likewise every decimal float literal
`ip.fp` yields a float whose exact rational denotation is
`ip + fp / 10 ^ len(fp)`; additionally `'1e5'` parses to the float
`100000.0`, the bare-dash tokens `'-'`, `'--'`, `'---'` are returned as
literal strings, and `'0#comments'` parses to the integer `0`. -/
theorem c4_default_parse_value_numbers :
    (∀ ds : List Char, ds ≠ [] → (∀ c ∈ ds, isDigitChar c = true) →
      DefaultParseValue (String.mk ds) = Value.int (digitsToNat ds)) ∧
    (∀ ds : List Char, ds ≠ [] → (∀ c ∈ ds, isDigitChar c = true) →
      DefaultParseValue (String.mk ('-' :: ds)) = Value.int (-(digitsToNat ds : Int))) ∧
    (∀ ip fp : List Char, ip ≠ [] → fp ≠ [] →
      (∀ c ∈ ip, isDigitChar c = true) → (∀ c ∈ fp, isDigitChar c = true) →
      DefaultParseValue (String.mk (ip ++ '.' :: fp)) =
          Value.float (digitsToNat ip * 10 ^ fp.length + digitsToNat fp) (10 ^ fp.length) ∧
        floatRat (digitsToNat ip * 10 ^ fp.length + digitsToNat fp) (10 ^ fp.length) =
          (digitsToNat ip : Rat) + (digitsToNat fp : Rat) / ((10 : Rat) ^ fp.length)) ∧
    (DefaultParseValue "1e5" = Value.float 100000 1 ∧ floatRat 100000 1 = 100000) ∧
    DefaultParseValue "-" = Value.str "-" ∧
    DefaultParseValue "--" = Value.str "--" ∧
    DefaultParseValue "---" = Value.str "---" ∧
    DefaultParseValue "0#comments" = Value.int 0 := by
  refine ⟨?_, ?_, ?_, ⟨rfl, by norm_num [floatRat]⟩, rfl, rfl, rfl, rfl⟩
  · intro ds h1 h2
    unfold DefaultParseValue
    rw [literalEval_int ds h1 h2]
  · intro ds h1 h2
    unfold DefaultParseValue
    rw [literalEval_neg_int ds h1 h2]
  · intro ip fp h1 h2 hip hfp
    refine ⟨?_, floatRat_decimal _ _ _⟩
    unfold DefaultParseValue
    rw [literalEval_float ip fp h1 h2 hip hfp]

/-- C4 witness: the universal parts applied at the concrete tokens `23`,
`-23` and `23.5`, matching the expectations of
`parser_test.testDefaultParseValueNumbers`. -/
theorem c4_witness :
    DefaultParseValue (String.mk ['2', '3']) = Value.int 23 ∧
      DefaultParseValue (String.mk ['-', '2', '3']) = Value.int (-23) ∧
      DefaultParseValue (String.mk (['2', '3'] ++ '.' :: ['5'])) = Value.float 235 10 :=
  ⟨c4_default_parse_value_numbers.1 ['2', '3'] (by decide) (by decide),
    c4_default_parse_value_numbers.2.1 ['2', '3'] (by decide) (by decide),
    (c4_default_parse_value_numbers.2.2.1 ['2', '3'] ['5'] (by decide) (by decide)
      (by decide) (by decide)).1⟩

end Fire

namespace Fire

/-! ## Capability classification, from `src/fire/value_types.py`

A component is abstracted by the reflection facts the source predicates
consult: `inspect.isroutine`, `inspect.isclass`, membership in
`VALUE_TYPES`, and the origin of its `__str__` attribute. -/

structure PyComponent where
  isRoutine : Bool
  isClass : Bool
  isValueTypeInstance : Bool
  hasStrAttr : Bool
  strDefiningClassIsObject : Option Bool

/-- Translated from `value_types.HasCustomStr`: the component has a
`__str__` attribute whose class-attribute entry exists and whose defining
class is not `object`. -/
def HasCustomStr (c : PyComponent) : Bool :=
  if c.hasStrAttr then
    match c.strDefiningClassIsObject with
    | some isObj => !isObj
    | Option.none => false
  else false

/-- Translated from `value_types.IsCommand`: a routine or a class. -/
def IsCommand (c : PyComponent) : Bool := c.isRoutine || c.isClass

/-- Translated from `value_types.IsValue`: an instance of the fixed
primitive-like `VALUE_TYPES`, or a component with a custom `__str__`. -/
def IsValue (c : PyComponent) : Bool := c.isValueTypeInstance || HasCustomStr c

/-- Translated from `value_types.IsGroup`: neither a command nor a value. -/
def IsGroup (c : PyComponent) : Bool := !IsCommand c && !IsValue c

/-- C6: for every component, `IsCommand` holds exactly when the component
is a routine or a class, `IsGroup` holds exactly when neither `IsCommand`
nor `IsValue` holds, and consequently no component is classified both as a
group and a command, or both as a group and a value. -/
theorem c6_classification (c : PyComponent) :
    (IsCommand c = true ↔ (c.isRoutine = true ∨ c.isClass = true)) ∧
    (IsGroup c = true ↔ (IsCommand c = false ∧ IsValue c = false)) ∧
    ¬(IsGroup c = true ∧ IsCommand c = true) ∧
    ¬(IsGroup c = true ∧ IsValue c = true) := by
  have hg : IsGroup c = true ↔ (IsCommand c = false ∧ IsValue c = false) := by
    simp [IsGroup]
  refine ⟨by simp [IsCommand], hg, ?_, ?_⟩
  · rintro ⟨h1, h2⟩
    rw [(hg.mp h1).1] at h2
    exact Bool.noConfusion h2
  · rintro ⟨h1, h2⟩
    rw [(hg.mp h1).2] at h2
    exact Bool.noConfusion h2

/-- C6 witness: the classification theorem applied to a concrete
routine-like component, which is a command and not a group. -/
theorem c6_witness :
    IsCommand ⟨true, false, false, true, some true⟩ = true ∧
      ¬(IsGroup ⟨true, false, false, true, some true⟩ = true ∧
        IsCommand ⟨true, false, false, true, some true⟩ = true) :=
  ⟨by decide, (c6_classification ⟨true, false, false, true, some true⟩).2.2.1⟩

/-! ## Decorator metadata, from `src/fire/decorators.py`

`GetMetadata` reads the `FIRE_METADATA` attribute of a callable.  The
attribute slot is modelled by `AttrState`: absent (so `getattr` yields the
supplied default), raising on access (caught by the bare `except`), or
present with an arbitrary Python value.  The Python `in` test used by
`if ACCEPTS_POSITIONAL_ARGS in metadata` is modelled by `pyIn`, which
checks keys of dicts, elements of lists, substrings of strings, and raises
(`Option.none`) on non-container values. -/

inductive PyKind where
  | function
  | method
  | builtinRoutine
  | cls
  | objectInstance

inductive PyVal where
  | bool : Bool → PyVal
  | int : Int → PyVal
  | str : String → PyVal
  | list : List PyVal → PyVal
  | dict : List (String × PyVal) → PyVal

inductive AttrState where
  | absent
  | raises
  | present : PyVal → AttrState

structure PyObj where
  kind : PyKind
  fireMetadata : AttrState

/-- Model of `inspect.isroutine`: true for functions, methods and builtin
routines; false for classes and for instances (whose call behaviour lives
in `__call__`). -/
def isroutine (fn : PyObj) : Bool :=
  match fn.kind with
  | .function => true
  | .method => true
  | .builtinRoutine => true
  | .cls => false
  | .objectInstance => false

def ACCEPTS_POSITIONAL_ARGS : String := "ACCEPTS_POSITIONAL_ARGS"

/-- Prefix test on character lists. -/
def prefixOfChars : List Char → List Char → Bool
  | [], _ => true
  | _ :: _, [] => false
  | a :: as', b :: bs => a = b && prefixOfChars as' bs

/-- Substring test on character lists, modelling Python's `in` on strings. -/
def containsSub (s pat : List Char) : Bool :=
  if prefixOfChars pat s then true
  else
    match s with
    | [] => false
    | _ :: rest => containsSub rest pat

/-- Model of the Python `in` operator as used on the metadata attribute:
key membership for dicts, element equality for lists, substring test for
strings; `Option.none` models the `TypeError` raised on non-containers. -/
def pyIn (key : String) : PyVal → Option Bool
  | .dict entries => some (entries.any (fun p => p.1 == key))
  | .list items =>
    some (items.any (fun it =>
      match it with
      | .str s => s == key
      | _ => false))
  | .str s => some (containsSub s.data key.data)
  | .bool _ => Option.none
  | .int _ => Option.none

/-- The default metadata dict built by `GetMetadata`:
`(ACCEPTS_POSITIONAL_ARGS : inspect.isroutine(fn))`. -/
def defaultMetadata (fn : PyObj) : PyVal :=
  .dict [(ACCEPTS_POSITIONAL_ARGS, .bool (isroutine fn))]

/-- Translated from `decorators.GetMetadata` (source lines 131-156):
`getattr(fn, FIRE_METADATA, default)` with any exception caught by the
bare `except` returning the default; if the membership test
`ACCEPTS_POSITIONAL_ARGS in metadata` succeeds the stored value is
returned verbatim, otherwise the default is returned (a `TypeError` from
the membership test is likewise caught). -/
def GetMetadata (fn : PyObj) : PyVal :=
  match fn.fireMetadata with
  | .absent => defaultMetadata fn
  | .raises => defaultMetadata fn
  | .present m =>
    match pyIn ACCEPTS_POSITIONAL_ARGS m with
    | some true => m
    | some false => defaultMetadata fn
    | Option.none => defaultMetadata fn

/-- Lookup of a key in a dict-valued metadata object. -/
def pyDictGet (v : PyVal) (key : String) : Option PyVal :=
  match v with
  | .dict entries => (entries.find? (fun p => p.1 == key)).map (fun p => p.2)
  | _ => Option.none

/-- Whether a metadata value is a dict that contains the given key. -/
def isDictContainingKey (v : PyVal) (key : String) : Bool :=
  match v with
  | .dict entries => entries.any (fun p => p.1 == key)
  | _ => false

/-- A callable whose stored `FIRE_METADATA` attribute is a list containing
the literal key string, rather than a dict. -/
def badMetadataObj : PyObj :=
  ⟨.function, .present (.list [.str ACCEPTS_POSITIONAL_ARGS])⟩

end Fire

namespace Fire

/-- C10 counterexample: a callable whose stored metadata attribute is the
list `['ACCEPTS_POSITIONAL_ARGS']` passes the membership test, so
`GetMetadata` returns the list verbatim — not a dictionary containing the
key and not the default — refuting the claim that the result is always a
dictionary containing `ACCEPTS_POSITIONAL_ARGS` and that every malformed
attribute yields exactly the default. -/
theorem c10_counterexample_list_metadata :
    GetMetadata badMetadataObj = PyVal.list [PyVal.str ACCEPTS_POSITIONAL_ARGS] ∧
      isDictContainingKey (GetMetadata badMetadataObj) ACCEPTS_POSITIONAL_ARGS = false :=
  ⟨rfl, rfl⟩

/-- C10 (amended): `GetMetadata` is total and never raises: when the
stored metadata attribute is missing, when reading it raises, or when the
membership test for `ACCEPTS_POSITIONAL_ARGS` on it fails or itself
raises, the result is exactly the default
`(ACCEPTS_POSITIONAL_ARGS : isroutine(fn))`; when the membership test
succeeds the stored value is returned verbatim — in particular a stored
dict always produces a dict containing the key, but a non-dict container
that contains the key string is returned as-is, so the result is not
always a dictionary. -/
theorem c10_get_metadata_total :
    (∀ fn : PyObj, fn.fireMetadata = AttrState.absent →
      GetMetadata fn = defaultMetadata fn) ∧
    (∀ fn : PyObj, fn.fireMetadata = AttrState.raises →
      GetMetadata fn = defaultMetadata fn) ∧
    (∀ (fn : PyObj) (m : PyVal), fn.fireMetadata = AttrState.present m →
      pyIn ACCEPTS_POSITIONAL_ARGS m ≠ some true → GetMetadata fn = defaultMetadata fn) ∧
    (∀ (fn : PyObj) (m : PyVal), fn.fireMetadata = AttrState.present m →
      pyIn ACCEPTS_POSITIONAL_ARGS m = some true → GetMetadata fn = m) ∧
    (∀ fn : PyObj, isDictContainingKey (defaultMetadata fn) ACCEPTS_POSITIONAL_ARGS = true) ∧
    (∀ (fn : PyObj) (entries : List (String × PyVal)),
      fn.fireMetadata = AttrState.present (PyVal.dict entries) →
      isDictContainingKey (GetMetadata fn) ACCEPTS_POSITIONAL_ARGS = true) := by
  refine ⟨?_, ?_, ?_, ?_, ?_, ?_⟩
  · intro fn h
    simp only [GetMetadata, h]
  · intro fn h
    simp only [GetMetadata, h]
  · intro fn m h hin
    rcases hp : pyIn ACCEPTS_POSITIONAL_ARGS m with _ | b
    · simp only [GetMetadata, h, hp]
    · cases b
      · simp only [GetMetadata, h, hp]
      · exact absurd hp hin
  · intro fn m h hin
    simp only [GetMetadata, h, hin]
  · intro fn
    simp [defaultMetadata, isDictContainingKey]
  · intro fn entries h
    rcases hp : pyIn ACCEPTS_POSITIONAL_ARGS (PyVal.dict entries) with _ | b
    · simp [GetMetadata, h, hp, defaultMetadata, isDictContainingKey]
    · cases b
      · simp [GetMetadata, h, hp, defaultMetadata, isDictContainingKey]
      · have hany : (entries.any fun p => p.1 == ACCEPTS_POSITIONAL_ARGS) = true := by
          simp only [pyIn, Option.some.injEq] at hp
          exact hp
        simp [GetMetadata, h, hp, isDictContainingKey, hany]

/-- C10 witness: the amended theorem applied to an undecorated function
(metadata attribute absent), yielding exactly the default. -/
theorem c10_witness :
    GetMetadata ⟨PyKind.function, AttrState.absent⟩ =
      defaultMetadata ⟨PyKind.function, AttrState.absent⟩ :=
  c10_get_metadata_total.1 ⟨PyKind.function, AttrState.absent⟩ rfl

end Fire

namespace Fire

/-! ## Argument specifications -/

/-- The normalized signature record of the spec (section 3, `ArgSpec`):
positional names, defaults aligned to the tail of the positional names,
variadic names, keyword-only names and defaults, annotations. -/
structure FullArgSpec where
  args : List String
  defaults : List Value
  varargs : Option String
  varkw : Option String
  kwonlyargs : List String
  kwonlydefaults : List (String × Value)
  annotations : List (String × String)

def emptyFullArgSpec : FullArgSpec :=
  ⟨[], [], Option.none, Option.none, [], [], []⟩

/-- Kinds of callables distinguished by the argument-spec extractor, with
the reflection data each carries. -/
inductive PyFn where
  | plainFunction : FullArgSpec → PyFn
  | namedTupleType : List String → PyFn
  | builtinFn : String → PyFn

/-- Modelled from the spec: direct signature introspection (module
`fire/inspectutils.py`, absent from `src/`).  Plain functions expose their
signature; named-tuple constructors and built-in/C-implemented callables
have no introspectable signature and fail (this failure path is the
`TypeError` branch of the source). -/
def introspectSignature : PyFn → Option FullArgSpec
  | .plainFunction sp => some sp
  | .namedTupleType _ => Option.none
  | .builtinFn _ => Option.none

/-- The `_fields` attribute of named-tuple-like types. -/
def tupleFieldsOf : PyFn → Option (List String)
  | .namedTupleType fields => some fields
  | _ => Option.none

/-- Modelled from the spec: `inspectutils.GetFullArgSpec` (module
`fire/inspectutils.py`, absent from `src/`).  When signature introspection
fails, a named-tuple-like type contributes its declared fields as the
positional argument names with no defaults and no variadics, and any other
uninspectable callable degrades to the empty arg spec instead of
raising. -/
def GetFullArgSpec (fn : PyFn) : FullArgSpec :=
  match introspectSignature fn with
  | some sp => sp
  | Option.none =>
    match tupleFieldsOf fn with
    | some fields => ⟨fields, [], Option.none, Option.none, [], [], []⟩
    | Option.none => emptyFullArgSpec

/-- C7: on a named-tuple type `GetFullArgSpec` returns the tuple's declared
fields as the positional argument names with empty defaults, no variadic
positional, no variadic keyword and no keyword-only arguments; on a
built-in callable without an introspectable signature it returns the empty
arg spec instead of raising (totality is by construction).  The concrete
conjuncts mirror `inspectutils_test.testGetFullArgSpecFromNamedTuple` and
`testGetFullArgSpecFromBuiltin`. -/
theorem c7_get_full_arg_spec :
    (∀ fields : List String,
      GetFullArgSpec (.namedTupleType fields) =
        ⟨fields, [], Option.none, Option.none, [], [], []⟩) ∧
    (∀ name : String, GetFullArgSpec (.builtinFn name) = emptyFullArgSpec) ∧
    GetFullArgSpec (.namedTupleType ["x", "y"]) =
      ⟨["x", "y"], [], Option.none, Option.none, [], [], []⟩ ∧
    GetFullArgSpec (.builtinFn "upper") =
      ⟨[], [], Option.none, Option.none, [], [], []⟩ :=
  ⟨fun _ => rfl, fun _ => rfl, rfl, rfl⟩

/-! ## Call binding

Modelled from the spec (section 4.5, step 5): the call-binding
sub-algorithm of the resolution engine in `fire/core.py` (absent from
`src/`), pinned by `fire_test.testBoolParsingWithNo`,
`core_test.testInvalidParameterRaisesFireExit` and
`core_test.testCallableWithPositionalArgs`.  Tokens are scanned left to
right; a token is a flag iff it begins with one or two dashes and is not
purely numeric; `--name=value`, `--name value` and the boolean forms
`--name` / `--noname` (the latter only when no explicit value follows) are
supported; the rightmost occurrence of a flag wins; bare tokens fill
required positionals in order only when the callable's metadata accepts
positional arguments; consumed value tokens go through the literal
parser.  Short single-letter flag resolution is not exercised by the
claims and is outside this model. -/

inductive UsageError where
  | couldNotConsume : String → UsageError
  | missingRequiredArg : String → UsageError
  | unexpectedFlag : String → UsageError
  | outOfFuel : UsageError

/-- Flag classification: one or two leading dashes followed by something
that is not a digit or a dot (so `-5` and `-5.0` are positional negative
numbers, and a lone `-` is not a flag). -/
def isFlagToken (t : String) : Bool :=
  match t.data with
  | '-' :: c :: _ => !(isDigitChar c || c = '.')
  | _ => false

/-- Split a flag body at the first `=`, if any. -/
def splitAtEq : List Char → List Char × Option (List Char)
  | [] => ([], Option.none)
  | c :: rest =>
    if c = '=' then ([], some rest)
    else
      let p := splitAtEq rest
      (c :: p.1, p.2)

/-- Flag keys normalize hyphens to underscores for parameter lookup. -/
def underscoreKey (cs : List Char) : String :=
  String.mk (cs.map (fun c => if c = '-' then '_' else c))

/-- A key of the form `noX` negates the boolean flag `X`. -/
def negatedName (key : String) : Option String :=
  match key.data with
  | 'n' :: 'o' :: c :: cs => some (String.mk (c :: cs))
  | _ => Option.none

/-- Record a flag assignment; an existing entry (from a later, rightmost
token, since scanning folds from the right of the recursion) wins. -/
def upsertLeft (kw : List (String × Value)) (k : String) (v : Value) :
    List (String × Value) :=
  if kw.any (fun p => p.1 == k) then kw else (k, v) :: kw

/-- Scan the tokens of a call, extracting flag assignments out-of-band and
keeping bare tokens (positional candidates) in order.  `eligible` is the
set of declared parameter names; unrecognized flags are admitted only when
the callable declares a variadic-keyword slot, otherwise they are a
binding error. -/
def scanFlags (eligible : List String) (hasVarkw : Bool) :
    List String → Except UsageError (List (String × Value) × List String)
  | [] => .ok ([], [])
  | t :: rest =>
    if isFlagToken t then
      let body := t.data.dropWhile (fun c => c = '-')
      match splitAtEq body with
      | (keyCs, some valCs) =>
        let key := underscoreKey keyCs
        if eligible.contains key || hasVarkw then
          match scanFlags eligible hasVarkw rest with
          | .ok p => .ok (upsertLeft p.1 key (DefaultParseValue (String.mk valCs)), p.2)
          | .error e => .error e
        else .error (.unexpectedFlag key)
      | (keyCs, Option.none) =>
        let key := underscoreKey keyCs
        let boolSyntax :=
          match rest with
          | [] => true
          | r :: _ => isFlagToken r
        if boolSyntax then
          if eligible.contains key then
            match scanFlags eligible hasVarkw rest with
            | .ok p => .ok (upsertLeft p.1 key (Value.bool true), p.2)
            | .error e => .error e
          else
            match negatedName key with
            | some base =>
              if eligible.contains base then
                match scanFlags eligible hasVarkw rest with
                | .ok p => .ok (upsertLeft p.1 base (Value.bool false), p.2)
                | .error e => .error e
              else if hasVarkw then
                match scanFlags eligible hasVarkw rest with
                | .ok p => .ok (upsertLeft p.1 key (Value.bool true), p.2)
                | .error e => .error e
              else .error (.unexpectedFlag key)
            | Option.none =>
              if hasVarkw then
                match scanFlags eligible hasVarkw rest with
                | .ok p => .ok (upsertLeft p.1 key (Value.bool true), p.2)
                | .error e => .error e
              else .error (.unexpectedFlag key)
        else
          match rest with
          | v :: rest2 =>
            if eligible.contains key || hasVarkw then
              match scanFlags eligible hasVarkw rest2 with
              | .ok p => .ok (upsertLeft p.1 key (DefaultParseValue v), p.2)
              | .error e => .error e
            else .error (.unexpectedFlag key)
          | [] => .error (.unexpectedFlag key)
    else
      match scanFlags eligible hasVarkw rest with
      | .ok p => .ok (p.1, t :: p.2)
      | .error e => .error e

/-- Fill the declared positional parameters in order: a flag assignment
for the name wins; otherwise a bare token is consumed when the callable
accepts positional arguments; otherwise the declared default applies; a
required parameter left without a value is a binding error. -/
def fillPositionals (acceptsPositional : Bool) (kwargs : List (String × Value)) :
    List (String × Option Value) → List String →
      Except UsageError (List (String × Value) × List String)
  | [], bare => .ok ([], bare)
  | (name, dflt) :: more, bare =>
    match kwargs.find? (fun p => p.1 == name) with
    | some p =>
      match fillPositionals acceptsPositional kwargs more bare with
      | .ok q => .ok ((name, p.2) :: q.1, q.2)
      | .error e => .error e
    | Option.none =>
      if acceptsPositional then
        match bare with
        | b :: bs =>
          match fillPositionals acceptsPositional kwargs more bs with
          | .ok q => .ok ((name, DefaultParseValue b) :: q.1, q.2)
          | .error e => .error e
        | [] =>
          match dflt with
          | some v =>
            match fillPositionals acceptsPositional kwargs more bare with
            | .ok q => .ok ((name, v) :: q.1, q.2)
            | .error e => .error e
          | Option.none => .error (.missingRequiredArg name)
      else
        match dflt with
        | some v =>
          match fillPositionals acceptsPositional kwargs more bare with
          | .ok q => .ok ((name, v) :: q.1, q.2)
          | .error e => .error e
        | Option.none => .error (.missingRequiredArg name)

/-- Bind keyword-only parameters from flag assignments and declared
defaults; a keyword-only name without either is a binding error. -/
def bindKwonly (kwargs : List (String × Value))
    (kwonlydefaults : List (String × Value)) :
    List String → Except UsageError (List (String × Value))
  | [] => .ok []
  | name :: more =>
    match kwargs.find? (fun p => p.1 == name) with
    | some p =>
      match bindKwonly kwargs kwonlydefaults more with
      | .ok q => .ok ((name, p.2) :: q)
      | .error e => .error e
    | Option.none =>
      match kwonlydefaults.find? (fun p => p.1 == name) with
      | some p =>
        match bindKwonly kwargs kwonlydefaults more with
        | .ok q => .ok ((name, p.2) :: q)
        | .error e => .error e
      | Option.none => .error (.missingRequiredArg name)

/-- Positional names paired with their defaults (defaults align with the
tail of the positional names). -/
def pairedArgs (sp : FullArgSpec) : List (String × Option Value) :=
  sp.args.zip
    (List.replicate (sp.args.length - sp.defaults.length) Option.none ++
      sp.defaults.map some)

/-- The whole call-binding step: scan flags, fill positionals, bind
keyword-only parameters, route surplus flags to the variadic-keyword slot
and surplus bare tokens to the variadic-positional slot when declared;
without a variadic-positional slot the unconsumed bare tokens are left for
continued resolution against the call's result. -/
def bindCall (sp : FullArgSpec) (acceptsPositional : Bool) (tokens : List String) :
    Except UsageError (List (String × Value) × List String) :=
  match scanFlags (sp.args ++ sp.kwonlyargs) sp.varkw.isSome tokens with
  | .error e => .error e
  | .ok (kwargs, bare) =>
    match fillPositionals acceptsPositional kwargs (pairedArgs sp) bare with
    | .error e => .error e
    | .ok (bound, remaining) =>
      match bindKwonly kwargs sp.kwonlydefaults sp.kwonlyargs with
      | .error e => .error e
      | .ok kwBound =>
        let extras :=
          if sp.varkw.isSome then
            kwargs.filter
              (fun p => !(sp.args.contains p.1) && !(sp.kwonlyargs.contains p.1))
          else []
        match sp.varargs with
        | some vname =>
          .ok (bound ++ kwBound ++
            [(vname, Value.tuple (remaining.map DefaultParseValue))] ++ extras, [])
        | Option.none => .ok (bound ++ kwBound ++ extras, remaining)

end Fire

namespace Fire

/-! ## The resolution engine

Modelled from the spec (sections 4.5, 6 and 7): the resolution loop of
`fire/core.py` (absent from `src/`).  A component is a plain value, a
group with named members, or a callable carrying its arg spec, its
positional-argument eligibility (read from the decorator metadata) and its
implementation.  An implementation returns either a new component or a
user-code exception; the engine threads user exceptions outward without
ever catching them, while usage errors are captured as data and converted
by the `Fire` boundary into a controlled exit with status 2. -/

/-- A user-code exception: its Python type name and message.  The engine
never constructs or alters one; it can only pass along what an invoked
implementation raised. -/
inductive UserExn where
  | mk : String → String → UserExn

inductive Component where
  | value : Value → Component
  | group : List (String × Component) → Component
  | callable : FullArgSpec → Bool →
      (List (String × Value) → Except UserExn Component) → Component

/-- One resolution walk: a callable in focus is bound and invoked and
resolution continues on its result with the unconsumed tokens; a group in
focus consumes the next token as a member name; a plain value with tokens
remaining is an unrecognized-command usage error.  The fuel argument
bounds the number of steps; `Fire` supplies more fuel than any claim's
walk needs. -/
def resolve : Nat → Component → List String → Except UserExn (Except UsageError Component)
  | 0, _, _ => .ok (.error .outOfFuel)
  | fuel+1, c, tokens =>
    match c with
    | .callable sp ap impl =>
      match bindCall sp ap tokens with
      | .error u => .ok (.error u)
      | .ok br =>
        match impl br.1 with
        | .error e => .error e
        | .ok result => resolve fuel result br.2
    | .value v =>
      match tokens with
      | [] => .ok (.ok (.value v))
      | t :: _ => .ok (.error (.couldNotConsume t))
    | .group members =>
      match tokens with
      | [] => .ok (.ok (.group members))
      | t :: rest =>
        match members.find? (fun p => p.1 == t) with
        | some p => resolve fuel p.2 rest
        | Option.none => .ok (.error (.couldNotConsume t))

/-- Outcome of a completed top-level invocation: a final component, or a
controlled CLI exit with the given status code. -/
inductive FireOutcome where
  | result : Component → FireOutcome
  | exit : Nat → FireOutcome

/-- Fuel supplied by the boundary: enough for every step of the walks the
claims exercise. -/
def fireFuel (args : List String) : Nat := args.length + 8

/-- Modelled from the spec: the `core.Fire` boundary (module
`fire/core.py`, absent from `src/`).  A usage error captured during
resolution becomes a controlled exit with status 2 (the `FireExit` path);
a user-code exception propagates unmodified; a completed resolution
returns its final component. -/
def Fire (c : Component) (args : List String) : Except UserExn FireOutcome :=
  match resolve (fireFuel args) c args with
  | .error e => .error e
  | .ok (.error _) => .ok (.exit 2)
  | .ok (.ok result) => .ok (.result result)

/-- Model of `tc.ErrorRaiser` from `core_test.testErrorRaising`: a group
whose member `fail` is a zero-argument routine whose body raises the given
exception. -/
def errorRaiserComponent (e : UserExn) : Component :=
  .group [("fail", .callable emptyFullArgSpec true (fun _ => .error e))]

/-- Model of `tc.Kwargs` from `core_test.testInvalidParameterRaisesFireExit`:
a group whose member `props` takes only `**kwargs` and returns them as a
dict value. -/
def kwargsComponent : Component :=
  .group [("props",
    .callable ⟨[], [], Option.none, some "kwargs", [], [], []⟩ true
      (fun bound =>
        .ok (.value (Value.dict (bound.map (fun p => (Value.str p.1, p.2)))))))]

/-- C2: usage errors terminate resolution as a controlled exit with status
2 and never escape as an exception, while any exception raised inside an
invoked user callable propagates through `Fire` unmodified, preserving its
type; concretely, the misspelled trailing token of
`core_test.testInvalidParameterRaisesFireExit` exits with status 2, and
the exception of `core_test.testErrorRaising` is returned exactly as the
user code raised it. -/
theorem c2_usage_exit_and_user_propagation :
    (∀ (c : Component) (args : List String) (u : UsageError),
      resolve (fireFuel args) c args = .ok (.error u) → Fire c args = .ok (.exit 2)) ∧
    (∀ (c : Component) (args : List String) (e : UserExn),
      Fire c args = .error e ↔ resolve (fireFuel args) c args = .error e) ∧
    (∀ e : UserExn, Fire (errorRaiserComponent e) ["fail"] = .error e) ∧
    Fire kwargsComponent ["props", "--a=1", "--b=2", "runmisspelled"] =
      .ok (.exit 2) := by
  refine ⟨?_, ?_, fun e => rfl, rfl⟩
  · intro c args u h
    simp only [Fire, h]
  · intro c args e
    rcases hr : resolve (fireFuel args) c args with e' | r
    · simp [Fire, hr]
    · rcases r with u | c' <;> simp [Fire, hr]

/-- C2 witness: the usage-error conjunct applied to a concrete walk (a
plain value cannot consume a token), and the propagation conjunct
instantiated at a concrete exception. -/
theorem c2_witness :
    Fire (.value (Value.int 0)) ["x"] = .ok (.exit 2) ∧
      Fire (errorRaiserComponent (UserExn.mk "ValueError" "microwave in use"))
          ["fail"] =
        .error (UserExn.mk "ValueError" "microwave in use") :=
  ⟨c2_usage_exit_and_user_propagation.1 (.value (Value.int 0)) ["x"]
      (.couldNotConsume "x") rfl,
    c2_usage_exit_and_user_propagation.2.2.1 (UserExn.mk "ValueError" "microwave in use")⟩

/-- Model of `fn1(thing, nothing)` from `fire_test.testBoolParsingWithNo`:
two required positional parameters and a body returning the pair. -/
def fn1Spec : FullArgSpec := ⟨["thing", "nothing"], [], Option.none, Option.none, [], [], []⟩

def fn1Component : Component :=
  .callable fn1Spec true (fun bound =>
    .ok (.value (Value.tuple
      [((bound.find? (fun p => p.1 == "thing")).map (fun p => p.2)).getD Value.none,
        ((bound.find? (fun p => p.1 == "nothing")).map (fun p => p.2)).getD Value.none])))

/-- C5: for `fn(thing, nothing)`, the tokens `['--thing','--nonothing']`
bind `thing=True, nothing=False` and the call returns `(True, False)`;
the tokens `['--nothing','--nonothing']` bind `nothing=False` — the
rightmost occurrence of the flag wins over the earlier `--nothing` — but
leave the required parameter `thing` unbound, which is a usage error
surfacing as a controlled exit with status 2. -/
theorem c5_bool_flag_negation :
    bindCall fn1Spec true ["--thing", "--nonothing"] =
        .ok ([("thing", Value.bool true), ("nothing", Value.bool false)], []) ∧
    Fire fn1Component ["--thing", "--nonothing"] =
        .ok (.result (.value (Value.tuple [Value.bool true, Value.bool false]))) ∧
    scanFlags ["thing", "nothing"] false ["--nothing", "--nonothing"] =
        .ok ([("nothing", Value.bool false)], []) ∧
    bindCall fn1Spec true ["--nothing", "--nonothing"] =
        .error (.missingRequiredArg "thing") ∧
    Fire fn1Component ["--nothing", "--nonothing"] = .ok (.exit 2) :=
  ⟨rfl, rfl, rfl, rfl, rfl⟩

/-- Reading the positional-argument eligibility from the decorator
metadata, as the call-binding step does:
`GetMetadata(fn)[ACCEPTS_POSITIONAL_ARGS]`. -/
def acceptsPositionalArgsOf (fn : PyObj) : Bool :=
  match pyDictGet (GetMetadata fn) ACCEPTS_POSITIONAL_ARGS with
  | some (.bool b) => b
  | _ => false

theorem getMetadata_absent_lookup (fn : PyObj) (h : fn.fireMetadata = AttrState.absent) :
    pyDictGet (GetMetadata fn) ACCEPTS_POSITIONAL_ARGS =
      some (PyVal.bool (isroutine fn)) := by
  simp [GetMetadata, h, defaultMetadata, pyDictGet]

/-- Model of the instance of `tc.CallableWithPositionalArgs` from
`core_test.testCallableWithPositionalArgs`: an undecorated callable object
whose `__call__(self, x, y)` takes two required parameters; its
positional-argument eligibility comes from the default decorator
metadata of the instance. -/
def callableObjInstance : PyObj := ⟨.objectInstance, .absent⟩

def callableObjComponent : Component :=
  .callable ⟨["x", "y"], [], Option.none, Option.none, [], [], []⟩
    (acceptsPositionalArgsOf callableObjInstance)
    (fun bound => .ok (.value (Value.tuple (bound.map (fun p => p.2)))))

/-- C9: for an undecorated callable the metadata defaults give
`accepts_positional_args = isroutine(fn)` — true exactly for ordinary
routines (functions, methods, builtin routines) and false for classes
(constructors) and instances (call-operators); consequently resolving the
bare positional tokens `['3','4']` against a callable object is a usage
error exiting with status 2, not a successful call. -/
theorem c9_accepts_positional_args :
    (∀ fn : PyObj, fn.fireMetadata = AttrState.absent →
      pyDictGet (GetMetadata fn) ACCEPTS_POSITIONAL_ARGS =
        some (PyVal.bool (isroutine fn))) ∧
    (∀ fn : PyObj, fn.fireMetadata = AttrState.absent →
      (acceptsPositionalArgsOf fn = true ↔
        (fn.kind = PyKind.function ∨ fn.kind = PyKind.method ∨
          fn.kind = PyKind.builtinRoutine))) ∧
    acceptsPositionalArgsOf ⟨PyKind.cls, AttrState.absent⟩ = false ∧
    acceptsPositionalArgsOf callableObjInstance = false ∧
    Fire callableObjComponent ["3", "4"] = .ok (.exit 2) := by
  refine ⟨getMetadata_absent_lookup, ?_, rfl, rfl, rfl⟩
  intro fn h
  have h1 := getMetadata_absent_lookup fn h
  unfold acceptsPositionalArgsOf
  rw [h1]
  obtain ⟨k, meta⟩ := fn
  cases k <;> simp [isroutine]

/-- C9 witness: the metadata-default conjunct applied to an undecorated
plain function, for which positional arguments are accepted. -/
theorem c9_witness :
    pyDictGet (GetMetadata ⟨PyKind.function, AttrState.absent⟩) ACCEPTS_POSITIONAL_ARGS =
        some (PyVal.bool true) ∧
      acceptsPositionalArgsOf ⟨PyKind.function, AttrState.absent⟩ = true :=
  ⟨c9_accepts_positional_args.1 ⟨PyKind.function, AttrState.absent⟩ rfl,
    (c9_accepts_positional_args.2.1 ⟨PyKind.function, AttrState.absent⟩ rfl).mpr
      (Or.inl rfl)⟩

end Fire

namespace Fire

/-! ## The execution trace

Modelled from the spec (sections 3 and 4.4): `trace.FireTrace` and
`trace.FireTraceElement` (module `fire/trace.py`, absent from `src/`).  A
trace owns an ordered, append-only list of step records; each append
operation adds one element, except `AddSeparator` which marks the latest
element.  The spec's invariant — once an error is appended, resolution
halts — is expressed by the validity predicate on operation sequences. -/

structure FireTraceElement where
  component : String
  action : String
  target : Option String
  args : Option (List String)
  filename : Option String
  lineno : Option Nat
  error : Option String
  hasSeparator : Bool

/-- Element-level error test, as in
`trace_test.testFireTraceElementHasError`. -/
def FireTraceElement.elHasError (el : FireTraceElement) : Bool := el.error.isSome

structure FireTrace where
  name : String
  separator : String
  elements : List FireTraceElement

def initialTrace (name : String) : FireTrace := ⟨name, "-", []⟩

/-- The append operations of the trace, one constructor per method. -/
inductive TraceOp where
  | accessedProperty : String → String → TraceOp
  | calledComponent : String → String → List String → String → TraceOp
  | completionScript : String → TraceOp
  | interactiveMode : TraceOp
  | separator : TraceOp
  | error : String → List String → TraceOp

def opIsError : TraceOp → Bool
  | .error _ _ => true
  | _ => false

/-- The element a non-separator operation appends. -/
def elementOfOp : TraceOp → FireTraceElement
  | .accessedProperty target component =>
    ⟨component, "Accessed property", some target, Option.none, Option.none,
      Option.none, Option.none, false⟩
  | .calledComponent component target args action =>
    ⟨component, action, some target, some args, Option.none, Option.none,
      Option.none, false⟩
  | .completionScript script =>
    ⟨script, "Generated completion script", Option.none, Option.none,
      Option.none, Option.none, Option.none, false⟩
  | .interactiveMode =>
    ⟨"", "Entered interactive mode", Option.none, Option.none, Option.none,
      Option.none, Option.none, false⟩
  | .separator =>
    ⟨"", "", Option.none, Option.none, Option.none, Option.none, Option.none,
      false⟩
  | .error msg args =>
    ⟨"", "", Option.none, some args, Option.none, Option.none, some msg, false⟩

/-- Mark the most recent element as carrying the separator (the
`AddSeparator` method mutates the last element rather than appending). -/
def markLastSeparator : List FireTraceElement → List FireTraceElement
  | [] => []
  | [el] => [{ el with hasSeparator := true }]
  | el :: rest => el :: markLastSeparator rest

/-- Apply one trace operation. -/
def applyOp (t : FireTrace) : TraceOp → FireTrace
  | .separator => { t with elements := markLastSeparator t.elements }
  | op => { t with elements := t.elements ++ [elementOfOp op] }

/-- Trace-level error test: some element carries a captured error. -/
def FireTrace.HasError (t : FireTrace) : Bool :=
  t.elements.any (fun el => el.elHasError)

/-- Run a sequence of trace operations from the initial trace. -/
def runOps (name : String) (ops : List TraceOp) : FireTrace :=
  ops.foldl applyOp (initialTrace name)

/-- Validity of an operation sequence, per the spec's invariant: an error
operation is terminal — no further operation follows it. -/
def validOps : List TraceOp → Bool
  | [] => true
  | op :: rest => if opIsError op then rest.isEmpty else validOps rest

/-- Number of elements of a trace that carry an error. -/
def countErrors (els : List FireTraceElement) : Nat :=
  els.countP (fun el => el.error.isSome)

theorem countP_markLastSeparator (els : List FireTraceElement) :
    List.countP (fun el => el.error.isSome) (markLastSeparator els) =
      List.countP (fun el => el.error.isSome) els := by
  induction els with
  | nil => rfl
  | cons el rest ih =>
    cases rest with
    | nil => simp [markLastSeparator, List.countP_cons]
    | cons el2 rest2 =>
      simp only [markLastSeparator, List.countP_cons] at *
      omega

theorem countErrors_applyOp (t : FireTrace) (op : TraceOp) :
    countErrors (applyOp t op).elements =
      countErrors t.elements + (if opIsError op then 1 else 0) := by
  cases op <;>
    simp [applyOp, countErrors, List.countP_append, List.countP_cons,
      elementOfOp, opIsError, countP_markLastSeparator]

theorem countErrors_foldl (t : FireTrace) (ops : List TraceOp) :
    countErrors (ops.foldl applyOp t).elements =
      countErrors t.elements + (ops.countP opIsError) := by
  induction ops generalizing t with
  | nil => simp
  | cons op rest ih =>
    simp only [List.foldl_cons, List.countP_cons, ih, countErrors_applyOp]
    omega

theorem countP_error_of_valid (ops : List TraceOp) (h : validOps ops = true) :
    ops.countP opIsError ≤ 1 := by
  induction ops with
  | nil => simp
  | cons op rest ih =>
    by_cases he : opIsError op = true
    · have hrest : rest.isEmpty = true := by
        simpa [validOps, he] using h
      have : rest = [] := List.isEmpty_iff.mp hrest
      subst this
      simp [List.countP_cons, he]
    · have hrest : validOps rest = true := by
        simpa [validOps, he] using h
      have := ih hrest
      simp [List.countP_cons, he]
      omega

/-- C8: every trace reachable by a valid sequence of append operations
(valid means: per the spec's invariant, nothing is appended after an
error) satisfies `HasError` exactly when some element carries a captured
error, and carries at most one erroring element. -/
theorem c8_trace_error_invariant (name : String) (ops : List TraceOp)
    (h : validOps ops = true) :
    (FireTrace.HasError (runOps name ops) = true ↔
      ∃ el ∈ (runOps name ops).elements, el.error.isSome = true) ∧
    countErrors (runOps name ops).elements ≤ 1 := by
  constructor
  · simp [FireTrace.HasError, FireTraceElement.elHasError, List.any_eq_true]
  · have h1 := countErrors_foldl (initialTrace name) ops
    have h2 := countP_error_of_valid ops h
    unfold runOps
    rw [h1]
    simp only [initialTrace, countErrors, List.countP_nil]
    omega

/-- C8 witness: the invariant theorem applied to the concrete operation
sequence of `trace_test.testFireTraceHasError` — one property access
followed by one terminal error — whose resulting trace has an error and
exactly one erroring element. -/
theorem c8_witness :
    validOps [TraceOp.accessedProperty "t" "final",
        TraceOp.error "example error" ["arg"]] = true ∧
      ((FireTrace.HasError (runOps "start"
            [TraceOp.accessedProperty "t" "final",
              TraceOp.error "example error" ["arg"]]) = true ↔
          ∃ el ∈ (runOps "start"
              [TraceOp.accessedProperty "t" "final",
                TraceOp.error "example error" ["arg"]]).elements,
            el.error.isSome = true) ∧
        countErrors (runOps "start"
            [TraceOp.accessedProperty "t" "final",
              TraceOp.error "example error" ["arg"]]).elements ≤ 1) :=
  ⟨rfl, c8_trace_error_invariant "start"
    [TraceOp.accessedProperty "t" "final",
      TraceOp.error "example error" ["arg"]] rfl⟩

end Fire
